import Mathlib

/-!
A shallow embedding of `deba.js`, a converter from a tree of HTML markup nodes
to a Markdown string, together with proofs about its behaviour.

The embedding follows the source file `src/deba.js` declaration by
declaration: the pure text helpers (`Utils`), the renderer (`Stringifier`),
the block segment kinds (`Paragraph`, `Heading`, `ListItem`, `DefinitionTerm`,
`DefinitionDescription`, `Pre`), the block accumulator (`Document`) and the
traversal engine (`Extractor.process` / `extract`).  Mutable JavaScript state
(the document's buffers and the traversal flags) becomes an explicit state
record threaded through the functions.  External DOM services that the engine
merely consults (CSS selector matching and layout-based visibility) are
modelled as oracle functions carried in an environment record.
-/

namespace Deba

/-- The character class matched by JavaScript's `\s` (used by the regexes in
`Utils.escape` and `Utils.normalise`, and by `String.prototype.trim`):
space, tab, line feed, vertical tab, form feed, carriage return, NBSP, the
Unicode space separators, the line separators and the BOM. -/
def isJsWs (c : Char) : Bool :=
  c = ' ' || c = '\t' || c = '\n' || c = '\x0B' || c = '\x0C' || c = '\r' ||
  c = ' ' || c = ' ' || (' ' ≤ c && c ≤ ' ') ||
  c = ' ' || c = ' ' || c = ' ' || c = ' ' ||
  c = '　' || c = '﻿'

/-- JavaScript line terminators, which `.` in a regex without the `s` flag
never matches (relevant to the `&.*?;` entity regex in `Utils.escape`). -/
def isLineTerminator (c : Char) : Bool :=
  c = '\n' || c = '\r' || c = ' ' || c = ' '

/-- Embeds `text.replace(/\s+/g, " ")` from `Utils.normalise`: every maximal run of
whitespace collapses to a single space.  Character by character: a whitespace
character followed by more whitespace emits nothing, the final whitespace
character of a run emits one `' '`, and every other character passes through. -/
def collapseWs : List Char → List Char
  | [] => []
  | c :: cs =>
    if isJsWs c then
      match cs with
      | [] => [' ']
      | c2 :: _ => if isJsWs c2 then collapseWs cs else ' ' :: collapseWs cs
    else c :: collapseWs cs

/-- JavaScript `String.prototype.trim` on a list of characters: drop leading
and trailing whitespace (the trimmed set coincides with `isJsWs`). -/
def trimL (l : List Char) : List Char :=
  ((l.dropWhile isJsWs).reverse.dropWhile isJsWs).reverse

/-- JavaScript `String.prototype.trim`, as used at the end of
`Extractor.prototype.extract`. -/
def jsTrim (s : String) : String := String.mk (trimL s.toList)

namespace Utils

/-- Embeds `Utils.isPresent`: `text != "" && text.search(/^\s*$/) == -1`, i.e. the
string contains at least one non-whitespace character. -/
def isPresent (text : String) : Bool := text.toList.any (fun c => !isJsWs c)

/-- Embeds `Utils.normalise`: `text.replace(/\s+/g, " ").trim()`. -/
def normalise (text : String) : String := String.mk (trimL (collapseWs text.toList))

/-- The character class of the unconditional escaping regex
`/([*<\[\\_`~])/g` in `Utils.escape`: `*`, `<`, `[`, `\`, `_`, backtick
(`Char.ofNat 96`) and `~`. -/
def isAlwaysEscaped (c : Char) : Bool :=
  c = '*' || c = '<' || c = '[' || c = '\\' || c = '_' || c = Char.ofNat 96 || c = '~'

/-- The character class of the block-start escaping regex `/^(\s*?)([#+\-=>])/g`
in `Utils.escape`. -/
def isBlockStartChar (c : Char) : Bool :=
  c = '#' || c = '+' || c = '-' || c = '=' || c = '>'

/-- Embeds `text.replace(/([*<\[\\_`~])/g, '\\$1')`: prepend a backslash to every
occurrence of an always-escaped character. -/
def escAlways (l : List Char) : List Char :=
  l.flatMap (fun c => if isAlwaysEscaped c then ['\\', c] else [c])

/-- Embeds `text.replace(/^(\s*?)([#+\-=>])/g, '$1\\$2')`: the regex is anchored, so
it escapes the first non-whitespace character of the string when that
character is one of `#`, `+`, `-`, `=`, `>` (the lazy `\s*?` can only ever
absorb the leading whitespace run, since the escaped set is disjoint from
whitespace). -/
def escBlockStart (l : List Char) : List Char :=
  match l.dropWhile isJsWs with
  | c :: rest =>
    if isBlockStartChar c then l.takeWhile isJsWs ++ '\\' :: c :: rest else l
  | [] => l

/-- Helper for the entity regex `&.*?;`: given the characters after a `&`,
find the first `;` reachable without crossing a line terminator (which `.`
cannot match).  Returns the characters strictly between and the remainder
after the `;`. -/
def splitAtSemi : List Char → Option (List Char × List Char)
  | [] => none
  | c :: cs =>
    if c = ';' then some ([], cs)
    else if isLineTerminator c then none
    else
      match splitAtSemi cs with
      | some (mid, rest) => some (c :: mid, rest)
      | none => none

/-- Embeds `text.replace(/(&.*?;)/g, '\\$1')`, fuelled so that the scan after a
matched entity can resume past the consumed `;`.  The fuel is always
sufficient because each step consumes at least one input character. -/
def escEntityFuel : Nat → List Char → List Char
  | 0, l => l
  | _ + 1, [] => []
  | fuel + 1, c :: cs =>
    if c = '&' then
      match splitAtSemi cs with
      | some (mid, rest) => '\\' :: '&' :: (mid ++ ';' :: escEntityFuel fuel rest)
      | none => '&' :: escEntityFuel fuel cs
    else c :: escEntityFuel fuel cs

/-- Embeds `text.replace(/(&.*?;)/g, '\\$1')`: prepend a backslash to every
HTML-entity-shaped run `&...;` (lazy up to the first `;` on the same line). -/
def escEntity (l : List Char) : List Char := escEntityFuel l.length l

/-- Embeds `text.replace(/^(\s*\d+)\. /g, '$1\\. ')`: when the string starts with
optional whitespace, then at least one digit, then `". "`, escape that dot.
Greedy `\s*` and `\d+` make the match unambiguous because the digit class is
disjoint from whitespace and from `'.'`. -/
def escOrdinal (l : List Char) : List Char :=
  let w := l.takeWhile isJsWs
  let r := l.dropWhile isJsWs
  let d := r.takeWhile Char.isDigit
  match d, r.dropWhile Char.isDigit with
  | _ :: _, '.' :: ' ' :: rest => w ++ d ++ '\\' :: '.' :: ' ' :: rest
  | _, _ => l

/-- Embeds `Utils.escape`: the four replacements applied in source order. -/
def escape (text : String) : String :=
  String.mk (escOrdinal (escEntity (escBlockStart (escAlways text.toList))))

end Utils

/-- A segment of the document's open buffer or of a block's rendered array:
either a `Span` (inline text, fixed at construction) or a bare string (the
`"\n"` the traversal pushes after a lone `br`, and the structural literals the
`toArray` methods add).  The JavaScript code tells them apart by
`constructor.name` (`"Span"` vs `"String"`). -/
inductive Segment where
  | span (text : String)
  | str (text : String)
deriving DecidableEq, Repr

/-- Embeds `new Span(text, useRaw)`: the text is escaped at construction unless the
raw flag is set; it is never re-escaped afterwards. -/
def mkSpan (text : String) (useRaw : Bool) : Segment :=
  .span (if useRaw then text else Utils.escape text)

/-- A segment's `toString`, as invoked by `Array.prototype.join("")`. -/
def Segment.toText : Segment → String
  | .span t => t
  | .str t => t

/-- Whether a segment is a `Span` (`constructor.name == "Span"`). -/
def Segment.isSpan : Segment → Bool
  | .span _ => true
  | .str _ => false

namespace Stringifier

/-- Embeds `Stringifier.prototype.chunkUpSegments`: group the segment array into
maximal runs of segments sharing a constructor, tagging each run with whether
it consists of `Span`s. -/
def chunkUpSegments : List Segment → List (Bool × List Segment)
  | [] => []
  | s :: rest =>
    match chunkUpSegments rest with
    | [] => [(s.isSpan, [s])]
    | (b, chunk) :: more =>
      if s.isSpan = b then (b, s :: chunk) :: more
      else (s.isSpan, [s]) :: (b, chunk) :: more

/-- Embeds `Stringifier.prototype.stringify`: join each chunk, whitespace-normalise
the `Span` chunks, pass the others through verbatim, and concatenate. -/
def stringify (segments : List Segment) : String :=
  String.join ((chunkUpSegments segments).map (fun chunk =>
    let text := String.join (chunk.2.map Segment.toText)
    if chunk.1 then Utils.normalise text else text))

end Stringifier

/-- The block kinds together with their deferred constructor arguments, as
passed to `Document.prototype.break` (the `blockType` plus its extra args). -/
inductive BlockKind where
  | paragraph
  | heading (level : Nat)
  | listItem (last : Bool) (index : Option Nat)
  | definitionTerm
  | definitionDescription (last : Bool)
  | pre
deriving DecidableEq, Repr

/-- Embeds `"######".substr(-level) + " "` from `Heading.prototype.toArray`: for the
levels 1–6 that arise from the tags `h1`–`h6`, `level` hash marks and a
space. -/
def headingMarker (level : Nat) : String :=
  String.mk ((List.replicate 6 '#').drop (6 - level)) ++ " "

/-- Embeds `ListItem.prototype.prefix`: `"* "` when the index is `null`, otherwise
the decimal index followed by `". "`. -/
def listItemMarker : Option Nat → String
  | none => "* "
  | some i => toString i ++ ". "

/-- Embeds `String.prototype.split(/\n{2,}/g)` from `Pre.prototype.toArray`: split at
every maximal run of two or more newlines, keeping empty pieces exactly as
JavaScript does.  `acc` is the current piece (reversed); `nl` counts newlines
seen since the last non-newline character. -/
def splitParasAux (acc : List Char) (nl : Nat) : List Char → List (List Char)
  | [] =>
    if nl ≥ 2 then [acc.reverse, []]
    else [(if nl = 1 then '\n' :: acc else acc).reverse]
  | c :: cs =>
    if c = '\n' then splitParasAux acc (nl + 1) cs
    else if nl ≥ 2 then acc.reverse :: splitParasAux [c] 0 cs
    else splitParasAux (c :: (if nl = 1 then '\n' :: acc else acc)) 0 cs

/-- Embeds `split(/\n{2,}/g)` on a string. -/
def splitParas (s : String) : List String :=
  (splitParasAux [] 0 s.toList).map String.mk

/-- The loop of `Pre.prototype.toArray`: join the segments, split into
paragraphs, normalise each, and keep the non-blank ones. -/
def preParagraphs (segments : List Segment) : List String :=
  ((splitParas (String.join (segments.map Segment.toText))).map Utils.normalise).filter
    (fun p => Utils.isPresent p)

/-- The `toArray` methods of the six block classes, with the deferred
arguments supplied through `Document.prototype.blockContent`.  Literal strings
become `Segment.str`, exactly as the JavaScript arrays mix `Span` objects with
plain strings; `"\n" + (last ? "\n" : "")` is written out as its two cases. -/
def blockToArray : BlockKind → List Segment → List Segment
  | .paragraph, segs => segs ++ [.str "\n\n"]
  | .heading level, segs => .str (headingMarker level) :: (segs ++ [.str "\n\n"])
  | .listItem last index, segs =>
    .str (listItemMarker index) :: (segs ++ [.str (if last then "\n\n" else "\n")])
  | .definitionTerm, segs => segs ++ [.str ":\n"]
  | .definitionDescription last, segs => segs ++ [.str (if last then "\n\n" else "\n")]
  | .pre, segs =>
    match preParagraphs segs with
    | [] => []
    | ps => [.str (String.intercalate "\n\n" ps ++ "\n\n")]

/-- The mutable state of one transformation call: the three traversal flags of
`Extractor.prototype.extract` together with the fields of its `Document`
(cumulative output, open segment buffer, pending block kind).  The pending
kind is `none` only between `new Document` and the first `break`, while the
buffer is still empty. -/
structure ExtState where
  justAppendedBr : Bool
  inBlockquote : Bool
  groupWithNext : Bool
  content : String
  segments : List Segment
  blockKind : Option BlockKind
deriving DecidableEq, Repr

/-- The state at the start of `Extractor.prototype.extract`. -/
def initState : ExtState :=
  { justAppendedBr := false, inBlockquote := false, groupWithNext := false,
    content := "", segments := [], blockKind := none }

namespace Document

/-- Embeds `Document.prototype.push`. -/
def push (st : ExtState) (seg : Segment) : ExtState :=
  { st with segments := st.segments ++ [seg] }

/-- Embeds `Document.prototype.isPresent`: some buffered segment is a `Span`
(`instanceof Span`) whose text is non-blank; bare strings are never
inspected. -/
def isPresent (st : ExtState) : Bool :=
  st.segments.any (fun seg =>
    match seg with
    | .span t => Utils.isPresent t
    | .str _ => false)

/-- Embeds `Document.prototype.blockContent`: materialise the pending block variant
over the buffered segments and render it with the `Stringifier`.  The `none`
kind is unreachable from `finish` (it exists only while the buffer is empty,
and `finish` renders only buffers holding a non-blank `Span`). -/
def blockContent (kind : Option BlockKind) (segments : List Segment) : String :=
  match kind with
  | none => ""
  | some k => Stringifier.stringify (blockToArray k segments)

/-- Embeds `Document.prototype.finish`: no-op unless a non-blank `Span` is buffered;
otherwise append `"> "` when the extractor is inside a blockquote, then the
rendered block, to the cumulative output. -/
def finish (st : ExtState) : ExtState :=
  if isPresent st then
    { st with content :=
        st.content ++ (if st.inBlockquote then "> " else "") ++
          blockContent st.blockKind st.segments }
  else st

/-- Embeds `Document.prototype.start`: clear the buffer, record the pending kind. -/
def start (st : ExtState) (kind : BlockKind) : ExtState :=
  { st with segments := [], blockKind := some kind }

/-- Embeds `Document.prototype.break`: finish the current block, start the next. -/
def break' (st : ExtState) (kind : BlockKind) : ExtState :=
  start (finish st) kind

end Document

/-- The element properties the traversal reads directly: `href` (anchors),
`src` and `alt` (images) and `value` (textareas).  Generic markup attributes —
such as an ordered list's `start` — live in the separate `attrs` field of
`Node.element`, which the engine never reads. -/
structure ElementProps where
  href : String := ""
  src : String := ""
  alt : String := ""
  value : String := ""
deriving DecidableEq, Repr

/-- A markup node as provided by the external DOM library: a text node
(`nodeType` 3), a comment (`nodeType` 8), or an element (`nodeType` 1) with
tag, attributes, directly-read properties and ordered children. -/
inductive Node where
  | text (content : String)
  | comment (content : String)
  | element (tag : String) (attrs : List (String × String)) (props : ElementProps)
      (children : List Node)
deriving Repr

/-- ASCII `String.prototype.toLowerCase`, as applied to `nodeName`s. -/
def jsToLower (s : String) : String :=
  String.mk (s.toList.map (fun c =>
    if 'A' ≤ c && c ≤ 'Z' then Char.ofNat (c.toNat + 32) else c))

/-- Embeds `node.nodeName.toLowerCase()`: `"#text"` and `"#comment"` for the
non-element nodes, the lower-cased tag for elements. -/
def nodeName : Node → String
  | .text _ => "#text"
  | .comment _ => "#comment"
  | .element tag _ _ _ => jsToLower tag

/-- Embeds `node.nodeType`: 1 for elements, 3 for text nodes, 8 for comments. -/
def nodeType : Node → Nat
  | .text _ => 3
  | .comment _ => 8
  | .element _ _ _ _ => 1

/-- Whether a node is an element (`nodeType == 1`), the test behind
`previousElementSibling` / `nextElementSibling`. -/
def isElementNode (n : Node) : Bool := nodeType n = 1

/-- Embeds `node.childNodes` (empty for text nodes and comments). -/
def childrenOf : Node → List Node
  | .element _ _ _ cs => cs
  | _ => []

mutual
/-- Embeds `node.textContent`, the `textProperty` read by the enhancer and anchor
branches (with no layout engine behind the tree `innerText` is absent, so
`textContent` is selected): a text node's or comment's own data, an element's
concatenated descendant text. -/
def textContent : Node → String
  | .text s => s
  | .comment s => s
  | .element _ _ _ cs => childListText cs

/-- The contribution of a child list to an element's `textContent`: text
children contribute their data, comments contribute nothing, elements
recurse. -/
def childListText : List Node → String
  | [] => ""
  | .comment _ :: cs => childListText cs
  | n :: cs => textContent n ++ childListText cs
end

/-- Embeds `this.HEADING_TAGS`. -/
def HEADING_TAGS : List String := ["h1", "h2", "h3", "h4", "h5", "h6"]

/-- Embeds `this.BLOCK_INITIATING_TAGS`. -/
def BLOCK_INITIATING_TAGS : List String :=
  ["address", "article", "aside", "body", "blockquote", "div", "dd", "dl", "dt",
   "figure", "footer", "header", "li", "main", "nav", "ol", "p", "pre",
   "section", "td", "th", "ul"]

/-- Embeds `this.SKIP_TAGS`. -/
def SKIP_TAGS : List String := ["head", "style", "script", "noscript"]

/-- The tag set of `this.BREAK_TAGS_QUERY` (headings then block-initiating
tags, joined into one selector list). -/
def breakTags : List String := HEADING_TAGS ++ BLOCK_INITIATING_TAGS

mutual
/-- Whether a node is an element whose tag is in `breakTags`, or has such an
element among its descendants (tag selectors match case-insensitively). -/
def hasBreakTag : Node → Bool
  | .element tag _ _ ccs => breakTags.contains (jsToLower tag) || anyBreakDescendant ccs
  | _ => false

/-- Embeds `node.querySelectorAll(this.BREAK_TAGS_QUERY).length != 0` applied to a
node's child list: some descendant element's tag is a heading or a
block-initiating tag. -/
def anyBreakDescendant : List Node → Bool
  | [] => false
  | n :: cs => hasBreakTag n || anyBreakDescendant cs
end

/-- Embeds `this.ENHANCERS`: the raw emphasis marker for `b`, `strong`, `i`, `em`. -/
def enhancerOf (name : String) : Option String :=
  if name = "b" then some "**"
  else if name = "strong" then some "**"
  else if name = "i" then some "*"
  else if name = "em" then some "*"
  else none

/-- Embeds `parseInt(nodeName[1])` in the heading branch: the digit after the `h`
of `h1`–`h6`. -/
def headingLevelOf (name : String) : Nat :=
  match name.toList with
  | _ :: c :: _ => c.toNat - 48
  | _ => 0

/-- The recognised configuration options with their defaults
(`Object.assign({ images: true, links: true, excludeHidden: true }, options)`);
`exclude` is `none` when the caller supplies no selector list. -/
structure Options where
  images : Bool := true
  links : Bool := true
  excludeHidden : Bool := true
  exclude : Option (List String) := none

/-- The per-call environment: the options plus the external DOM services the
engine consults but does not implement — whether a real layout engine backs
the tree (`isDomReal`, i.e. `!document.hidden`), the layout-dependent part of
`isElementVisible` (box extent and page-bounds intersection) and CSS selector
matching (`node.matches`). -/
structure Env where
  opts : Options
  isDomReal : Bool
  visibleOracle : Node → Bool
  matchesOracle : Node → String → Bool

/-- A default-configured call on a tree with no layout engine behind it
(e.g. jsdom): every element is treated as visible. -/
def defaultEnv : Env :=
  { opts := {}, isDomReal := false,
    visibleOracle := fun _ => true, matchesOracle := fun _ _ => false }

/-- A node's position within its parent, which the DOM exposes through
`parentNode`, `previousElementSibling` and `nextElementSibling`: the parent's
lower-cased `nodeName` and the lists of preceding and following siblings, in
document order. -/
structure Ctx where
  parentName : String
  prev : List Node
  next : List Node

/-- The context of a top-level input node (the document element's parent is
the document node, whose `nodeName` is `"#document"`). -/
def rootCtx : Ctx := { parentName := "#document", prev := [], next := [] }

/-- Embeds `Extractor.prototype.isElementVisible`: always visible without a real
layout engine; non-elements are always visible; otherwise the box-extent /
page-bounds oracle decides. -/
def isElementVisible (env : Env) (n : Node) : Bool :=
  if !env.isDomReal then true
  else if nodeType n != 1 then true
  else env.visibleOracle n

/-- The three early returns at the top of `Extractor.prototype.process`:
skip-tags, caller-excluded selectors, and hidden elements. -/
def isSkipped (env : Env) (n : Node) : Bool :=
  SKIP_TAGS.contains (nodeName n) ||
  (match env.opts.exclude with
   | some sels => sels.any (env.matchesOracle n)
   | none => false) ||
  (env.opts.excludeHidden && !isElementVisible env n)

/-- The ordinal loop of the `li` branch (`index = 1; while ((sibling =
sibling.previousElementSibling)) index++`), written over the preceding-sibling
list in nearest-first order: the `previousElementSibling` chain visits exactly
the element siblings, so each element sibling adds one. -/
def liIndexLoop : List Node → Nat
  | [] => 1
  | n :: rest => if isElementNode n then liIndexLoop rest + 1 else liIndexLoop rest

/-- The tail of `Extractor.prototype.processFlowContent`: once the children
are processed, clear `groupWithNext` and force a paragraph break. -/
def flowWrap (st : ExtState) : ExtState :=
  Document.break' { st with groupWithNext := false } .paragraph

/-- The element dispatch of `Extractor.prototype.process`, in source order:
enhancers, image, anchor, blockquote, list item, definition term, definition
description, preformatted, textarea, block-initiating tags, headings, and the
flattening default.  `pl st` stands for `processChildren` on this element's
child list starting from state `st`; abstracting it keeps this function
non-recursive. -/
def elementBranch (env : Env) (ctx : Ctx) (st : ExtState) (name : String)
    (props : ElementProps) (children : List Node) (pl : ExtState → ExtState) : ExtState :=
  match enhancerOf name with
  | some marker =>
    if !Utils.isPresent (childListText children) then st
    else Document.push (pl (Document.push st (mkSpan marker true))) (mkSpan marker true)
  | none =>
    if env.opts.images && name = "img" then
      Document.push st
        (mkSpan ("![" ++ Utils.escape props.alt ++ "](" ++ props.src ++ ")") true)
    else if env.opts.links && name = "a" then
      if !Utils.isPresent (childListText children) then st
      else if anyBreakDescendant children then pl st
      else
        Document.push (pl (Document.push st (mkSpan "[" true)))
          (mkSpan ("](" ++ props.href ++ ")") true)
    else if name = "blockquote" then
      let st := Document.break' { st with inBlockquote := true } .paragraph
      let st := flowWrap (pl { st with groupWithNext := true })
      { st with inBlockquote := false }
    else if name = "li" then
      let index : Option Nat :=
        if ctx.parentName = "ol" then some (liIndexLoop ctx.prev.reverse) else none
      let last := !ctx.next.any isElementNode
      let st := Document.break' st (.listItem last index)
      flowWrap (pl { st with groupWithNext := true })
    else if name = "dt" then
      flowWrap (pl { Document.break' st .definitionTerm with groupWithNext := true })
    else if name = "dd" then
      let last := !ctx.next.any isElementNode
      flowWrap (pl { Document.break' st (.definitionDescription last) with
        groupWithNext := true })
    else if name = "pre" then
      Document.break' (pl (Document.break' st .pre)) .paragraph
    else if name = "textarea" then
      Document.break'
        (Document.push (Document.break' st .pre) (mkSpan props.value false)) .paragraph
    else if BLOCK_INITIATING_TAGS.contains name then
      let st :=
        if st.groupWithNext then { st with groupWithNext := false }
        else Document.break' st .paragraph
      Document.break' (pl st) .paragraph
    else if HEADING_TAGS.contains name then
      Document.break' (pl (Document.break' st (.heading (headingLevelOf name)))) .paragraph
    else pl st

mutual
/-- Embeds `Extractor.prototype.process`: the three skip checks, the line-break
coalescing prelude, the text-node branch, then — for elements — the tag
dispatch `elementBranch` with `processChildren` supplied for this element's
children.  Comments fall through every branch to the flattening default,
whose `childNodes` loop is empty. -/
def process (env : Env) (ctx : Ctx) (st : ExtState) (n : Node) : ExtState :=
  if isSkipped env n then st
  else if nodeName n = "br" && st.justAppendedBr then
    Document.break' { st with justAppendedBr := false } .paragraph
  else
    let st :=
      if nodeName n = "br" then { st with justAppendedBr := true }
      else if st.justAppendedBr then
        { st with justAppendedBr := false, segments := st.segments ++ [Segment.str "\n"] }
      else st
    match n with
    | .text s => Document.push st (mkSpan s false)
    | .comment _ => st
    | .element tag _ props children =>
      elementBranch env ctx st (jsToLower tag) props children
        (fun s => processList env (jsToLower tag) [] s children)

/-- Embeds `Extractor.prototype.processChildren`: process the children in order,
supplying each child its sibling context. -/
def processList (env : Env) (parentName : String) (prev : List Node) (st : ExtState) :
    List Node → ExtState
  | [] => st
  | n :: rest =>
    processList env parentName (prev ++ [n])
      (process env { parentName := parentName, prev := prev, next := rest } st n) rest
end

/-- One iteration of the loop in `Extractor.prototype.extract`:
`break(Paragraph); process(node); break(Paragraph)`. -/
def extractStep (env : Env) (st : ExtState) (n : Node) : ExtState :=
  Document.break' (process env rootCtx (Document.break' st .paragraph) n) .paragraph

/-- The state after the loop of `Extractor.prototype.extract` has consumed all
top-level input nodes; its `content` is the untrimmed accumulated output. -/
def extractState (env : Env) (nodes : List Node) : ExtState :=
  nodes.foldl (extractStep env) initState

/-- Embeds `Extractor.prototype.extract`: loop, then return the trimmed content. -/
def extract (env : Env) (nodes : List Node) : String :=
  jsTrim (extractState env nodes).content

/-- An element with no attributes and default properties. -/
def mkElem (tag : String) (children : List Node) : Node :=
  .element tag [] {} children

example :
    (extractState defaultEnv
      [mkElem "ul" [mkElem "li" [.text "a"], mkElem "li" [.text "b"]]]).content =
    "* a\n* b\n\n" := by decide

example :
    extract defaultEnv
      [mkElem "ol" [mkElem "li" [.text "x"], mkElem "li" [.text "y"]]] =
    "1. x\n2. y" := by decide

example :
    extract defaultEnv [mkElem "h2" [.text "Title"]] = "## Title" := by decide

example :
    extract defaultEnv
      [Node.element "a" [] { href := "http://e.com" } [.text "t"]] =
    "[t](http://e.com)" := by decide

example :
    extract defaultEnv [mkElem "pre" [.text "a  b\n\nc"]] = "a b\n\nc" := by decide

example : Utils.escape "1. x" = "1\\. x" := by decide

example : Utils.escape "a&amp;b" = "a\\&amp;b" := by decide

example : Utils.escape "  # t *x*" = "  \\# t \\*x\\*" := by decide

example : extract defaultEnv [mkElem "div" [.text "x", mkElem "br" [], .text "y"]] =
    "x\ny" := by decide

example : extract defaultEnv
    [mkElem "div" [.text "x", mkElem "br" [], mkElem "br" [], .text "y"]] =
    "x\n\ny" := by decide

example : extract defaultEnv [mkElem "blockquote" [.text "q"]] = "> q" := by decide

/-! ## General lemmas about the embedding -/

/-- The ordinal loop counts exactly the element nodes, plus one. -/
theorem liIndexLoop_eq_countP (l : List Node) :
    liIndexLoop l = l.countP (fun n => isElementNode n) + 1 := by
  induction l with
  | nil => rfl
  | cons n rest ih =>
    by_cases h : isElementNode n <;>
      simp [liIndexLoop, h, ih, List.countP_cons]

set_option maxHeartbeats 2000000 in
/-- The traversal `process` never reads an element's markup attributes: under the default
environment (no exclusion selectors, no layout engine) the result is the same
for any two attribute lists. -/
theorem process_defaultEnv_attrs (ctx : Ctx) (st : ExtState) (tag : String)
    (a a' : List (String × String)) (p : ElementProps) (cs : List Node) :
    process defaultEnv ctx st (.element tag a p cs) =
    process defaultEnv ctx st (.element tag a' p cs) := by
  rw [process.eq_def, process.eq_def]
  simp only [isSkipped, nodeName, nodeType, isElementVisible, defaultEnv]

/-! ## The claims -/

/-- C9: transforming an empty sequence of input nodes returns the empty
string — the top-level loop of `extract` runs zero times and the trimmed
accumulated content is `""`. -/
theorem c9_extract_empty_input (env : Env) : extract env [] = "" := rfl

/-- The input tree `<ul><li>a</li><li>b</li></ul>` of the list example. -/
def ulAB : Node := mkElem "ul" [mkElem "li" [.text "a"], mkElem "li" [.text "b"]]

/-- C1 (counterexample): for `<ul><li>a</li><li>b</li></ul>` under default
options the accumulated block output is not `"* a\n\n* b\n\n"` — the claimed
example string contradicts the claim's own rendering rule, under which only
the last item contributes a blank line. -/
theorem c1_list_output_counterexample :
    (extractState defaultEnv [ulAB]).content ≠ "* a\n\n* b\n\n" := by decide

/-- C1 (amended): for the input tree `<ul><li>a</li><li>b</li></ul>` (with
default options), the transformation's accumulated block output for the list
is the string `"* a\n* b\n\n"`: every list item renders as its prefix, its
children, and a newline, and only the last item (the one with no following
sibling element) receives the extra blank line. -/
theorem c1_list_output :
    (extractState defaultEnv [ulAB]).content = "* a\n* b\n\n" := by decide

/-- The tree `<ol start="5"><li>x</li>(whitespace)<li>y</li></ol>`: a source
start-index attribute, and a whitespace text node between the items. -/
def olStartXY : Node :=
  Node.element "ol" [("start", "5")] {}
    [mkElem "li" [.text "x"], .text "\n ", mkElem "li" [.text "y"]]

/-- C4: for every ordered list, a list item's ordinal is one plus the number
of preceding sibling elements (so ordinals run 1, 2, … in document order,
with non-element siblings not counted), and the computation never reads a
start-index attribute from the source markup: the output is invariant under
arbitrary changes to the `ol`'s attribute list, and concretely
`<ol start="5"><li>x</li><li>y</li></ol>` still numbers its items 1 and 2. -/
theorem c4_ordered_list_ordinals :
    (∀ prev : List Node,
      liIndexLoop prev.reverse = prev.countP (fun n => isElementNode n) + 1)
    ∧ (∀ (a a' : List (String × String)) (p : ElementProps) (cs : List Node),
        extract defaultEnv [Node.element "ol" a p cs] =
        extract defaultEnv [Node.element "ol" a' p cs])
    ∧ extract defaultEnv [olStartXY] = "1. x\n2. y" := by
  refine ⟨fun prev => ?_, fun a a' p cs => ?_, by decide⟩
  · rw [liIndexLoop_eq_countP, List.countP_reverse]
  · unfold extract extractState
    simp only [List.foldl_cons, List.foldl_nil]
    unfold extractStep
    rw [process_defaultEnv_attrs rootCtx _ "ol" a a' p cs]

/-- A character that triggers none of the four escaping rules of
`Utils.escape` in any position: not always-escaped, not a block-start
character, not `&` and not `.` — the source comment's characters "that can be
ignored", together with letters, digits and whitespace. -/
def noMarkdownMeaning (c : Char) : Bool :=
  !Utils.isAlwaysEscaped c && !Utils.isBlockStartChar c && !(c = '&') && !(c = '.')

/-- The claim's wording of `escape`, stated independently of the
implementation: prepend exactly one backslash to each occurrence of an
always-escaped character and alter nothing else. -/
def escapeSpec (s : String) : String :=
  String.mk (s.toList.flatMap (fun c =>
    if Utils.isAlwaysEscaped c then ['\\', c] else [c]))

/-- Unpacking `noMarkdownMeaning`. -/
theorem noMarkdownMeaning_spec {c : Char} (h : noMarkdownMeaning c = true) :
    Utils.isAlwaysEscaped c = false ∧ Utils.isBlockStartChar c = false ∧
      c ≠ '&' ∧ c ≠ '.' := by
  unfold noMarkdownMeaning at h
  rw [Bool.and_eq_true, Bool.and_eq_true, Bool.and_eq_true] at h
  rcases h with ⟨⟨⟨h1, h2⟩, h3⟩, h4⟩
  rw [Bool.not_eq_true'] at h1 h2
  refine ⟨h1, h2, ?_, ?_⟩
  · simpa using h3
  · simpa using h4

/-- Every character of `escAlways l` is an inserted backslash or a character
of `l`. -/
theorem mem_escAlways {c : Char} {l : List Char} (h : c ∈ Utils.escAlways l) :
    c = '\\' ∨ c ∈ l := by
  unfold Utils.escAlways at h
  rcases List.mem_flatMap.mp h with ⟨a, ha, hc⟩
  by_cases hs : Utils.isAlwaysEscaped a = true
  · simp only [if_pos hs, List.mem_cons, List.mem_singleton] at hc
    rcases hc with hc | hc | hc
    · exact Or.inl hc
    · exact Or.inr (hc ▸ ha)
    · exact absurd hc (List.not_mem_nil c)
  · simp only [if_neg hs, List.mem_singleton] at hc
    exact Or.inr (hc ▸ ha)

/-- Under the restriction of C2, the first non-whitespace character of
`escAlways l` is never a block-start character: it is an inserted backslash
or a character with no Markdown meaning. -/
theorem escAlways_no_blockstart {l : List Char}
    (h : ∀ c ∈ l, Utils.isAlwaysEscaped c = true ∨ noMarkdownMeaning c = true) :
    ∀ c, ((Utils.escAlways l).dropWhile isJsWs).head? = some c →
      Utils.isBlockStartChar c = false := by
  induction l with
  | nil => intro c hc; simp [Utils.escAlways] at hc
  | cons a rest ih =>
    intro c hc
    have hrest : ∀ c ∈ rest, Utils.isAlwaysEscaped c = true ∨ noMarkdownMeaning c = true :=
      fun c hm => h c (List.mem_cons_of_mem a hm)
    rcases h a (List.mem_cons_self a rest) with ha | ha
    · rw [show Utils.escAlways (a :: rest) = '\\' :: a :: Utils.escAlways rest by
        simp [Utils.escAlways, ha]] at hc
      rw [List.dropWhile_cons, if_neg (by decide)] at hc
      simp only [List.head?_cons, Option.some.injEq] at hc
      subst hc
      decide
    · have hesc : Utils.escAlways (a :: rest) = a :: Utils.escAlways rest := by
        simp [Utils.escAlways, (noMarkdownMeaning_spec ha).1]
      rw [hesc] at hc
      by_cases hws : isJsWs a = true
      · rw [List.dropWhile_cons, if_pos hws] at hc
        exact ih hrest c hc
      · rw [List.dropWhile_cons, if_neg hws] at hc
        simp only [List.head?_cons, Option.some.injEq] at hc
        subst hc
        exact (noMarkdownMeaning_spec ha).2.1

/-- The pass `escBlockStart` is the identity when the first non-whitespace character
is not in its class. -/
theorem escBlockStart_eq_self {m : List Char}
    (h : ∀ c, (m.dropWhile isJsWs).head? = some c → Utils.isBlockStartChar c = false) :
    Utils.escBlockStart m = m := by
  unfold Utils.escBlockStart
  cases hd : m.dropWhile isJsWs with
  | nil => rfl
  | cons c rest =>
    simp [h c (by rw [hd]; rfl)]

/-- The pass `escEntityFuel` is the identity on strings without `&`, for any fuel. -/
theorem escEntityFuel_eq_self (fuel : Nat) {l : List Char} (h : '&' ∉ l) :
    Utils.escEntityFuel fuel l = l := by
  induction fuel generalizing l with
  | zero => rfl
  | succ fuel ih =>
    cases l with
    | nil => rfl
    | cons c cs =>
      have hc : ¬(c = '&') := fun hc => h (hc ▸ List.mem_cons_self c cs)
      simp [Utils.escEntityFuel, hc, ih (fun hm => h (List.mem_cons_of_mem c hm))]

/-- The pass `escOrdinal` is the identity on strings without a dot. -/
theorem escOrdinal_eq_self {m : List Char} (h : '.' ∉ m) :
    Utils.escOrdinal m = m := by
  unfold Utils.escOrdinal
  dsimp only
  split
  · next heq1 heq2 =>
    exfalso
    apply h
    have h1 : '.' ∈ (m.dropWhile isJsWs).dropWhile Char.isDigit := by
      rw [heq2]; exact List.mem_cons_self _ _
    exact (List.dropWhile_suffix isJsWs).subset
      ((List.dropWhile_suffix Char.isDigit).subset h1)
  · rfl

/-- C2: for every input string over the always-escaped characters
`* _ ~ `(backtick)` < [ \` plus characters with no Markdown meaning,
`Utils.escape` prepends exactly one backslash to each occurrence of an
always-escaped character, wherever it appears, and alters no other
character. -/
theorem c2_escape_always_class (s : String)
    (h : ∀ c ∈ s.toList, Utils.isAlwaysEscaped c = true ∨ noMarkdownMeaning c = true) :
    Utils.escape s = escapeSpec s := by
  have hamp : '&' ∉ Utils.escAlways s.toList := by
    intro hm
    rcases mem_escAlways hm with hm | hm
    · exact absurd hm (by decide)
    · rcases h _ hm with hc | hc
      · exact absurd hc (by decide)
      · exact absurd hc (by decide)
  have hdot : '.' ∉ Utils.escAlways s.toList := by
    intro hm
    rcases mem_escAlways hm with hm | hm
    · exact absurd hm (by decide)
    · rcases h _ hm with hc | hc
      · exact absurd hc (by decide)
      · exact absurd hc (by decide)
  unfold Utils.escape
  rw [escBlockStart_eq_self (escAlways_no_blockstart h)]
  rw [show Utils.escEntity (Utils.escAlways s.toList) = Utils.escAlways s.toList from
    escEntityFuel_eq_self _ hamp]
  rw [escOrdinal_eq_self hdot]
  rfl

/-- Witness for C2 at the concrete input `"a*b_c!"`. -/
theorem c2_escape_always_class_witness :
    (∀ c ∈ ("a*b_c!" : String).toList,
      Utils.isAlwaysEscaped c = true ∨ noMarkdownMeaning c = true)
    ∧ Utils.escape "a*b_c!" = escapeSpec "a*b_c!" :=
  ⟨by decide, c2_escape_always_class "a*b_c!" (by decide)⟩

/-! ## Lemmas about `normalise` (for C7) -/

/-- No two adjacent whitespace characters. -/
def noWsPair (a b : Char) : Prop := isJsWs a = false ∨ isJsWs b = false

/-- Collapsing past a non-whitespace head. -/
theorem collapseWs_cons_nonws {c : Char} (h : isJsWs c = false) (cs : List Char) :
    collapseWs (c :: cs) = c :: collapseWs cs := by
  cases cs <;> simp [collapseWs, h]

/-- A character of `collapseWs l` is either a space or a non-whitespace
character of `l`. -/
theorem mem_collapseWs {c : Char} :
    ∀ {l : List Char}, c ∈ collapseWs l → c = ' ' ∨ (c ∈ l ∧ isJsWs c = false) := by
  intro l
  induction l using collapseWs.induct with
  | case1 => intro h; exact absurd h (List.not_mem_nil c)
  | case2 c0 h0 =>
    intro h
    rw [show collapseWs [c0] = [' '] by simp [collapseWs, h0]] at h
    exact Or.inl (List.mem_singleton.mp h)
  | case3 c0 h0 c2 tail h2 ih =>
    intro h
    rw [show collapseWs (c0 :: c2 :: tail) = collapseWs (c2 :: tail) by
      simp [collapseWs, h0, h2]] at h
    rcases ih h with h | ⟨hm, hw⟩
    · exact Or.inl h
    · exact Or.inr ⟨List.mem_cons_of_mem c0 hm, hw⟩
  | case4 c0 h0 c2 tail h2 ih =>
    intro h
    rw [show collapseWs (c0 :: c2 :: tail) = ' ' :: collapseWs (c2 :: tail) by
      simp [collapseWs, h0, h2]] at h
    rcases List.mem_cons.mp h with h | h
    · exact Or.inl h
    · rcases ih h with h | ⟨hm, hw⟩
      · exact Or.inl h
      · exact Or.inr ⟨List.mem_cons_of_mem c0 hm, hw⟩
  | case5 c0 tail h0 ih =>
    intro h
    rw [collapseWs_cons_nonws (Bool.not_eq_true _ ▸ h0) tail] at h
    rcases List.mem_cons.mp h with h | h
    · exact Or.inr ⟨h ▸ List.mem_cons_self c0 tail, h ▸ Bool.not_eq_true _ ▸ h0⟩
    · rcases ih h with h | ⟨hm, hw⟩
      · exact Or.inl h
      · exact Or.inr ⟨List.mem_cons_of_mem c0 hm, hw⟩

/-- The pass `collapseWs` never produces two adjacent whitespace characters. -/
theorem chain'_collapseWs : ∀ l : List Char, List.Chain' noWsPair (collapseWs l) := by
  intro l
  induction l using collapseWs.induct with
  | case1 => simp [collapseWs]
  | case2 c0 h0 => rw [show collapseWs [c0] = [' '] by simp [collapseWs, h0]]; simp
  | case3 c0 h0 c2 tail h2 ih =>
    rw [show collapseWs (c0 :: c2 :: tail) = collapseWs (c2 :: tail) by
      simp [collapseWs, h0, h2]]
    exact ih
  | case4 c0 h0 c2 tail h2 ih =>
    rw [show collapseWs (c0 :: c2 :: tail) = ' ' :: collapseWs (c2 :: tail) by
      simp [collapseWs, h0, h2]]
    rw [List.chain'_cons']
    refine ⟨?_, ih⟩
    intro y hy
    rw [collapseWs_cons_nonws (Bool.not_eq_true _ ▸ h2) tail] at hy
    simp only [List.head?_cons, Option.mem_def, Option.some.injEq] at hy
    exact Or.inr (hy ▸ Bool.not_eq_true _ ▸ h2)
  | case5 c0 tail h0 ih =>
    rw [collapseWs_cons_nonws (Bool.not_eq_true _ ▸ h0) tail]
    rw [List.chain'_cons']
    exact ⟨fun y _ => Or.inl (Bool.not_eq_true _ ▸ h0), ih⟩

/-- The pass `collapseWs` is the identity on lists with no adjacent whitespace whose
whitespace characters are all plain spaces. -/
theorem collapseWs_eq_self :
    ∀ {l : List Char}, (∀ c ∈ l, isJsWs c = true → c = ' ') →
      List.Chain' noWsPair l → collapseWs l = l := by
  intro l
  induction l with
  | nil => intro _ _; rfl
  | cons c cs ih =>
    intro hsp hch
    by_cases hc : isJsWs c = true
    · have hcsp : c = ' ' := hsp c (List.mem_cons_self c cs) hc
      cases cs with
      | nil => subst hcsp; rfl
      | cons c2 tail =>
        have h2 : isJsWs c2 = false := by
          rcases (List.chain'_cons.mp hch).1 with h | h
          · exact absurd hc (by rw [h]; decide)
          · exact h
        rw [show collapseWs (c :: c2 :: tail) = ' ' :: collapseWs (c2 :: tail) by
          simp [collapseWs, hc, h2]]
        rw [ih (fun d hd => hsp d (List.mem_cons_of_mem c hd)) (List.chain'_cons.mp hch).2]
        rw [hcsp]
    · rw [collapseWs_cons_nonws (Bool.not_eq_true _ ▸ hc) cs]
      rw [ih (fun d hd => hsp d (List.mem_cons_of_mem c hd)) hch.tail]

/-- The head of a `dropWhile` never satisfies the dropped predicate. -/
theorem head?_dropWhile_nonp (p : Char → Bool) (l : List Char) :
    ∀ c, (l.dropWhile p).head? = some c → p c = false := by
  induction l with
  | nil => intro c hc; exact absurd hc (by simp)
  | cons a as ih =>
    intro c hc
    rw [List.dropWhile_cons] at hc
    by_cases ha : p a = true
    · rw [if_pos ha] at hc; exact ih c hc
    · rw [if_neg ha] at hc
      simp only [List.head?_cons, Option.some.injEq] at hc
      exact hc ▸ Bool.not_eq_true _ ▸ ha

/-- The function `dropWhile` is the identity when the head does not satisfy the
predicate. -/
theorem dropWhile_eq_self_of_head {l : List Char} {p : Char → Bool}
    (h : ∀ c, l.head? = some c → p c = false) : l.dropWhile p = l := by
  cases l with
  | nil => rfl
  | cons c cs => rw [List.dropWhile_cons, h c rfl]; simp

/-- The function `trimL` is the identity when neither end is whitespace. -/
theorem trimL_eq_self {l : List Char}
    (h1 : ∀ c, l.head? = some c → isJsWs c = false)
    (h2 : ∀ c, l.getLast? = some c → isJsWs c = false) :
    trimL l = l := by
  unfold trimL
  rw [dropWhile_eq_self_of_head h1]
  rw [dropWhile_eq_self_of_head (fun c hc => h2 c (List.head?_reverse l ▸ hc))]
  exact List.reverse_reverse l

/-- The result of `trimL` is a prefix of the leading-whitespace drop. -/
theorem trimL_prefix_drop (l : List Char) :
    trimL l <+: l.dropWhile isJsWs := by
  unfold trimL
  refine List.reverse_suffix.mp ?_
  rw [List.reverse_reverse]
  exact List.dropWhile_suffix _

/-- The result of `trimL` is an infix of the input. -/
theorem trimL_isInfix (l : List Char) : trimL l <:+: l :=
  (trimL_prefix_drop l).isInfix.trans (List.dropWhile_suffix _).isInfix

/-- The head of `trimL l` is never whitespace. -/
theorem trimL_head_nonws (l : List Char) :
    ∀ c, (trimL l).head? = some c → isJsWs c = false := by
  intro c hc
  obtain ⟨t, ht⟩ := trimL_prefix_drop l
  apply head?_dropWhile_nonp isJsWs l c
  rw [← ht]
  cases htr : trimL l with
  | nil => rw [htr] at hc; exact absurd hc (by simp)
  | cons d ds =>
    rw [htr] at hc
    simp only [List.head?_cons, Option.some.injEq] at hc
    simp [hc]

/-- The last character of `trimL l` is never whitespace. -/
theorem trimL_getLast_nonws (l : List Char) :
    ∀ c, (trimL l).getLast? = some c → isJsWs c = false := by
  intro c hc
  unfold trimL at hc
  rw [List.getLast?_reverse] at hc
  exact head?_dropWhile_nonp isJsWs _ c hc

/-- C7: `normalise` is idempotent, and its result contains no run of two or
more consecutive whitespace characters (adjacent characters are never both
whitespace). -/
theorem c7_normalise_idempotent (s : String) :
    Utils.normalise (Utils.normalise s) = Utils.normalise s ∧
    List.Chain' (fun a b => isJsWs a = false ∨ isJsWs b = false)
      (Utils.normalise s).toList := by
  have hmem : ∀ c ∈ trimL (collapseWs s.toList), isJsWs c = true → c = ' ' := by
    intro c hc hw
    have : c ∈ collapseWs s.toList := (trimL_isInfix (collapseWs s.toList)).subset hc
    rcases mem_collapseWs this with h | ⟨_, h⟩
    · exact h
    · exact absurd hw (by rw [h]; decide)
  have hch : List.Chain' noWsPair (trimL (collapseWs s.toList)) :=
    List.Chain'.infix (chain'_collapseWs s.toList) (trimL_isInfix _)
  constructor
  · show String.mk (trimL (collapseWs (trimL (collapseWs s.toList)))) =
      String.mk (trimL (collapseWs s.toList))
    rw [collapseWs_eq_self hmem hch]
    rw [trimL_eq_self (trimL_head_nonws _) (trimL_getLast_nonws _)]
  · exact hch

/-! ## Lemmas about the traversal (C3, C5, C6, C8, C10) -/

/-- A node is not skipped under an environment with no exclusion selectors
and no layout engine, provided its name is not a skip tag. -/
theorem isSkipped_eq_false {env : Env} {n : Node}
    (hx : env.opts.exclude = none) (hd : env.isDomReal = false)
    (hn : SKIP_TAGS.contains (nodeName n) = false) :
    isSkipped env n = false := by
  unfold isSkipped isElementVisible
  rw [hx, hn, hd]
  simp

/-- A `<br>` element. -/
def mkBr : Node := mkElem "br" []

/-- The renderer passes a lone bare-string segment through verbatim. -/
theorem stringify_single_str (s : String) :
    Stringifier.stringify [Segment.str s] = s := by
  simp [Stringifier.stringify, Stringifier.chunkUpSegments, Segment.isSpan,
    Segment.toText, String.join]

/-- The method `finish` is the identity when no segment is a non-blank span. -/
theorem finish_of_not_present {st : ExtState} (h : Document.isPresent st = false) :
    Document.finish st = st := by
  unfold Document.finish
  simp [h]

/-- A buffer with no span segment at all is never present. -/
theorem isPresent_eq_false_of_no_span {st : ExtState}
    (h : ∀ seg ∈ st.segments, seg.isSpan = false) :
    Document.isPresent st = false := by
  unfold Document.isPresent
  rw [List.any_eq_false]
  intro seg hseg
  cases seg with
  | span t => exact absurd (h _ hseg) (by simp [Segment.isSpan])
  | str t => simp

/-- C3: (a) a second consecutive line-break node forces a paragraph break (a
blank-line separator, via `break(Paragraph)`); (b) a single line-break only
records the deferred flag and emits nothing; (c) when the flag is pending and
the next node is not a line break (and not skipped), the traversal emits
exactly one literal newline — a bare `"\n"` segment — before that node, and
otherwise behaves exactly as with a clear flag: no blank-line separator. -/
theorem c3_linebreak_coalescing (env : Env) (ctx : Ctx) (st : ExtState) (n : Node)
    (hx : env.opts.exclude = none) (hd : env.isDomReal = false) :
    (st.justAppendedBr = true →
      process env ctx st mkBr =
        Document.break' { st with justAppendedBr := false } .paragraph)
    ∧ (st.justAppendedBr = false →
      process env ctx st mkBr = { st with justAppendedBr := true })
    ∧ (st.justAppendedBr = true → nodeName n ≠ "br" →
        SKIP_TAGS.contains (nodeName n) = false →
      process env ctx st n =
        process env ctx
          { st with justAppendedBr := false, segments := st.segments ++ [Segment.str "\n"] }
          n) := by
  have hskbr : isSkipped env mkBr = false := isSkipped_eq_false hx hd (by decide)
  have hnamebr : nodeName mkBr = "br" := by decide
  refine ⟨?_, ?_, ?_⟩
  · intro hflag
    rw [process.eq_def]
    simp [hskbr, hnamebr, hflag]
  · intro hflag
    rw [process.eq_def]
    simp only [hskbr, Bool.false_eq_true, if_false, hnamebr, hflag, Bool.and_false,
      if_true, reduceIte]
    show elementBranch env ctx { st with justAppendedBr := true } (jsToLower "br") {} []
      (fun s => processList env (jsToLower "br") [] s []) = { st with justAppendedBr := true }
    rw [show jsToLower "br" = "br" from by decide]
    unfold elementBranch
    simp [show enhancerOf "br" = none from by decide,
      show ¬("br" ∈ BLOCK_INITIATING_TAGS) from by decide,
      show ¬("br" ∈ HEADING_TAGS) from by decide,
      processList]
  · intro hflag hbr hskip
    have hsk : isSkipped env n = false := isSkipped_eq_false hx hd hskip
    rw [process.eq_def, process.eq_def]
    simp [hsk, hbr, hflag]

/-- Witness for C3 at a concrete state and a concrete text node. -/
theorem c3_linebreak_coalescing_witness :
    defaultEnv.opts.exclude = none ∧ defaultEnv.isDomReal = false ∧
    process defaultEnv rootCtx { initState with justAppendedBr := true } mkBr =
      Document.break' initState .paragraph ∧
    process defaultEnv rootCtx initState mkBr = { initState with justAppendedBr := true } ∧
    process defaultEnv rootCtx { initState with justAppendedBr := true } (.text "x") =
      process defaultEnv rootCtx
        { initState with segments := [Segment.str "\n"] } (.text "x") :=
  ⟨rfl, rfl,
    (c3_linebreak_coalescing defaultEnv rootCtx { initState with justAppendedBr := true }
      (.text "x") rfl rfl).1 rfl,
    (c3_linebreak_coalescing defaultEnv rootCtx initState (.text "x") rfl rfl).2.1 rfl,
    (c3_linebreak_coalescing defaultEnv rootCtx { initState with justAppendedBr := true }
      (.text "x") rfl rfl).2.2 rfl (by decide) (by decide)⟩

/-- C5: `Document.finish` leaves the cumulative output buffer (indeed the
whole state) unchanged whenever the open segment buffer holds no non-blank
`Span`; consequently a block whose only segments are blank spans contributes
nothing to the output; and when the buffer is present, `finish` appends the
rendered block, prefixed by `"> "` exactly when the traversal is inside a
blockquote. -/
theorem c5_finish_frame (st : ExtState) :
    (Document.isPresent st = false → Document.finish st = st)
    ∧ ((∀ seg ∈ st.segments, ∃ t, seg = Segment.span t ∧ Utils.isPresent t = false) →
        Document.finish st = st)
    ∧ (Document.isPresent st = true →
        Document.finish st =
          { st with content := st.content ++ (if st.inBlockquote then "> " else "") ++
              Document.blockContent st.blockKind st.segments }) := by
  refine ⟨fun h => finish_of_not_present h, ?_, ?_⟩
  · intro h
    apply finish_of_not_present
    unfold Document.isPresent
    rw [List.any_eq_false]
    intro seg hseg
    obtain ⟨t, rfl, ht⟩ := h seg hseg
    simpa using ht
  · intro h
    unfold Document.finish
    rw [h]
    simp

/-- Witness for C5: a blank-span buffer is discarded; a non-blank buffer is
rendered and appended. -/
theorem c5_finish_frame_witness :
    Document.finish
        { initState with segments := [Segment.span "  "], blockKind := some .paragraph } =
      { initState with segments := [Segment.span "  "], blockKind := some .paragraph }
    ∧ Document.finish
        { initState with segments := [Segment.span "hi"], blockKind := some .paragraph } =
      { justAppendedBr := false, inBlockquote := false, groupWithNext := false,
        content := "hi\n\n", segments := [Segment.span "hi"],
        blockKind := some .paragraph } :=
  ⟨(c5_finish_frame _).2.1 (fun seg hseg => ⟨"  ", List.mem_singleton.mp hseg, by decide⟩),
   (c5_finish_frame _).2.2 (by decide)⟩

/-- C6: a preformatted block renders as the concatenation of its segments'
text, split on runs of two or more newlines into paragraphs, each paragraph
whitespace-normalised, empty paragraphs dropped, the survivors rejoined with
one blank line, and a trailing blank line appended; when every paragraph
normalises to empty the block renders as nothing at all.  Concretely,
`<pre>a  b\n\nc</pre>` preserves the blank-line paragraph boundary but
collapses the doubled interior space. -/
theorem c6_pre_rendering :
    (∀ segs : List Segment,
      Document.blockContent (some .pre) segs =
        if preParagraphs segs = [] then ""
        else String.intercalate "\n\n" (preParagraphs segs) ++ "\n\n")
    ∧ (∀ segs : List Segment,
        (∀ p ∈ (splitParas (String.join (segs.map Segment.toText))).map Utils.normalise,
          Utils.isPresent p = false) →
        Document.blockContent (some .pre) segs = "")
    ∧ extract defaultEnv [mkElem "pre" [.text "a  b\n\nc"]] = "a b\n\nc" := by
  have hmain : ∀ segs : List Segment,
      Document.blockContent (some .pre) segs =
        if preParagraphs segs = [] then ""
        else String.intercalate "\n\n" (preParagraphs segs) ++ "\n\n" := by
    intro segs
    show Stringifier.stringify (blockToArray .pre segs) = _
    rw [blockToArray.eq_def]
    cases h : preParagraphs segs with
    | nil => simp [h, Stringifier.stringify, Stringifier.chunkUpSegments, String.join]
    | cons p ps =>
      simp only [h]
      rw [stringify_single_str, if_neg (by simp [h])]
  refine ⟨hmain, ?_, by decide⟩
  intro segs hblank
  rw [hmain segs, if_pos ?_]
  unfold preParagraphs
  rw [List.filter_eq_nil_iff]
  intro p hp
  simpa using hblank p hp

/-- Witness for C6: a preformatted block whose single paragraph normalises to
empty renders as nothing. -/
theorem c6_pre_rendering_witness :
    (∀ p ∈ (splitParas (String.join ([Segment.span " \n\n "].map Segment.toText))).map
        Utils.normalise, Utils.isPresent p = false)
    ∧ Document.blockContent (some .pre) [Segment.span " \n\n "] = "" :=
  ⟨by decide, c6_pre_rendering.2.1 [Segment.span " \n\n "] (by decide)⟩

/-- The default environment with `links: false`. -/
def linksOffEnv : Env := { defaultEnv with opts := { links := false } }

/-- An anchor element with an `href` and children. -/
def anchorNode (href : String) (children : List Node) : Node :=
  Node.element "a" [] { href := href } children

/-- C8: an anchor with non-blank text and no block/heading descendant
renders, with links enabled, as `[` + children + `](` + href + `)` (the
bracket pieces are raw spans around the recursively processed children);
with links disabled the anchor branch is bypassed and the element flattens to
its children.  Concretely `<a href="http://e.com">t</a>` gives
`"[t](http://e.com)"` with links on and `"t"` with links off. -/
theorem c8_anchor_rendering (env : Env) (ctx : Ctx) (st : ExtState)
    (href : String) (cs : List Node)
    (hx : env.opts.exclude = none) (hd : env.isDomReal = false)
    (hflag : st.justAppendedBr = false)
    (hp : Utils.isPresent (childListText cs) = true)
    (hb : anyBreakDescendant cs = false) :
    (env.opts.links = true →
      process env ctx st (anchorNode href cs) =
        Document.push (processList env "a" [] (Document.push st (Segment.span "[")) cs)
          (Segment.span ("](" ++ href ++ ")")))
    ∧ (env.opts.links = false →
      process env ctx st (anchorNode href cs) = processList env "a" [] st cs)
    ∧ extract defaultEnv [anchorNode "http://e.com" [.text "t"]] = "[t](http://e.com)"
    ∧ extract linksOffEnv [anchorNode "http://e.com" [.text "t"]] = "t" := by
  unfold anchorNode
  have hsk : isSkipped env (Node.element "a" [] { href := href } cs) = false :=
    isSkipped_eq_false hx hd
      (by show SKIP_TAGS.contains (jsToLower "a") = false; decide)
  have hname : jsToLower "a" = "a" := by decide
  have henh : enhancerOf "a" = none := by decide
  refine ⟨?_, ?_, by decide, by decide⟩
  · intro hl
    rw [process.eq_def]
    simp [hsk, nodeName, hname, hflag, elementBranch, henh, hl, hp, hb, mkSpan]
  · intro hl
    rw [process.eq_def]
    simp [hsk, nodeName, hname, hflag, elementBranch, henh, hl, hp, hb, mkSpan,
      show ¬("a" ∈ BLOCK_INITIATING_TAGS) from by decide,
      show ¬("a" ∈ HEADING_TAGS) from by decide]

/-- Witness for C8 at the claim's concrete anchor. -/
theorem c8_anchor_rendering_witness :
    defaultEnv.opts.links = true ∧
    Utils.isPresent (childListText [Node.text "t"]) = true ∧
    anyBreakDescendant [Node.text "t"] = false ∧
    process defaultEnv rootCtx initState (anchorNode "http://e.com" [Node.text "t"]) =
      Document.push
        (processList defaultEnv "a" [] (Document.push initState (Segment.span "["))
          [Node.text "t"])
        (Segment.span "](http://e.com)") :=
  ⟨rfl, by decide, by decide,
    (c8_anchor_rendering defaultEnv rootCtx initState "http://e.com" [Node.text "t"]
      rfl rfl rfl (by decide) (by decide)).1 rfl⟩

/-- C10: the deferred newline emitted after a lone line break is a bare
string segment, not a `Span`; the renderer passes bare strings through
verbatim (never whitespace-collapsed); presence-detection inspects only
spans, so a block whose segments are all bare strings is discarded entirely —
and a lone `<br>` contributes no output, even when its deferred `"\n"` is
pushed into the following block. -/
theorem c10_bare_string_blocks (st : ExtState) :
    (∀ s : String, Stringifier.stringify [Segment.str s] = s)
    ∧ ((∀ seg ∈ st.segments, seg.isSpan = false) → Document.finish st = st)
    ∧ extract defaultEnv [mkBr] = ""
    ∧ extract defaultEnv [mkBr, mkElem "div" [.text "x"]] = "x" := by
  refine ⟨stringify_single_str, ?_, by decide, by decide⟩
  intro h
  exact finish_of_not_present (isPresent_eq_false_of_no_span h)

/-- Witness for C10: a buffer holding only the bare `"\n"` segment is
discarded by `finish`. -/
theorem c10_bare_string_blocks_witness :
    (∀ seg ∈ [Segment.str "\n"], seg.isSpan = false)
    ∧ Document.finish
        { initState with segments := [Segment.str "\n"], blockKind := some .paragraph } =
      { initState with segments := [Segment.str "\n"], blockKind := some .paragraph } :=
  ⟨by decide,
    (c10_bare_string_blocks
      { initState with segments := [Segment.str "\n"], blockKind := some .paragraph }).2.1
      (by decide)⟩

end Deba
